import Mathlib

/-
Verification development for the video-ingestion backend.

The Python modules are shallowly embedded as Lean definitions:
exact rational arithmetic models Python float arithmetic, `pyInt`
models Python's `int()` truncation, `Option` models `None`, and
`Except` models raised exceptions.  Stateful collaborators (the rq
queue, the Mongo document store) are modelled as explicit state
passed through the functions that mutate them.
-/

namespace App

/-- Models Python `int()` on a (nonnegative or negative) number:
truncation toward zero. -/
def pyInt (q : ℚ) : ℤ := if q < 0 then ⌈q⌉ else ⌊q⌋

/-! ### Constants from `app/workers/jobs/video_ingest_progress.py` -/

def DOWNLOAD_PROGRESS_PARTS : ℕ := 2

def DOWNLOAD_PROGRESS_START : ℤ := 5

def DOWNLOAD_PROGRESS_MAX : ℤ := 70

def UPLOAD_PROGRESS_START : ℤ := 71

def UPLOAD_PROGRESS_DONE : ℤ := 92

def FINALIZE_PROGRESS_START : ℤ := 93

def FINALIZE_PROGRESS_DONE : ℤ := 100

/-- `clamp(value, *, lower=0, upper=100)`; call sites pass the
Python defaults explicitly. -/
def clamp (value lower upper : ℤ) : ℤ := max lower (min upper value)

/-- `_download_part_span()`: `(MAX - START) / max(PARTS, 1)` as float
arithmetic, modelled exactly over ℚ. -/
def _download_part_span : ℚ :=
  ((DOWNLOAD_PROGRESS_MAX - DOWNLOAD_PROGRESS_START : ℤ) : ℚ) /
    ((max DOWNLOAD_PROGRESS_PARTS 1 : ℕ) : ℚ)

/-- One raw yt-dlp progress-hook status dict (the keys the code reads). -/
structure RawStatus where
  status : Option String
  total_bytes : Option ℕ
  total_bytes_estimate : Option ℕ
  downloaded_bytes : Option ℕ
  eta : Option ℕ
deriving DecidableEq, Repr

/-- The payload dict built by `make_progress_payload`. -/
structure EventPayload where
  status : Option String
  progress : Option ℤ
  eta : Option ℕ
deriving DecidableEq, Repr

/-- Python `a or b` on optional numbers: `a` unless it is falsy
(`None` or `0`). -/
def pyOrNat (a b : Option ℕ) : Option ℕ :=
  match a with
  | some t => if t = 0 then b else some t
  | none => b

/-- `make_progress_payload(status)` from `video_ingest_progress.py`. -/
def make_progress_payload (s : RawStatus) : Option EventPayload :=
  if s.status = some "downloading" ∨ s.status = some "finished" then
    let total := pyOrNat s.total_bytes s.total_bytes_estimate
    let progress0 : Option ℤ :=
      match total, s.downloaded_bytes with
      | some t, some d =>
          if t = 0 then none
          else some (clamp (pyInt ((d : ℚ) / (t : ℚ) * 100)) 0 DOWNLOAD_PROGRESS_MAX)
      | _, _ => none
    let progress1 : Option ℤ :=
      if s.status = some "finished" then some 100 else progress0
    let eta1 : Option ℕ :=
      match s.eta with
      | some e => if e = 0 then none else some e
      | none => none
    some ⟨s.status, progress1, eta1⟩
  else none

/-- `map_download_progress(raw_pct, *, completed_parts=0)`. -/
def map_download_progress (raw_pct : Option ℤ) (completed_parts : ℕ) : Option ℤ :=
  match raw_pct with
  | none => none
  | some p =>
      some (clamp (pyInt ((DOWNLOAD_PROGRESS_START : ℚ) +
        (completed_parts : ℚ) * _download_part_span +
        ((p : ℚ) / 100) * _download_part_span)) 0 100)

/-- `download_progress_for_completed_parts(completed_parts)`. -/
def download_progress_for_completed_parts (completed_parts : ℕ) : ℤ :=
  clamp (pyInt ((DOWNLOAD_PROGRESS_START : ℚ) +
    ((min completed_parts DOWNLOAD_PROGRESS_PARTS : ℕ) : ℚ) * _download_part_span)) 0 100

/-- The mutable closure state of `_progress_hook` in
`_run_ingest_async`: `last_download_progress` (initially `-1`) and
`completed_parts` (initially `0`). -/
structure HookState where
  last : ℤ
  cp : ℕ
deriving DecidableEq, Repr

/-- One invocation of `_progress_hook` on a raw status dict: returns
the updated closure state and the progress value published through
`emit_progress`, if any. -/
def hookStep (s : HookState) (ev : RawStatus) : HookState × Option ℤ :=
  match make_progress_payload ev with
  | none => (s, none)
  | some pl =>
      if ev.status = some "finished" then
        let cp := min (s.cp + 1) DOWNLOAD_PROGRESS_PARTS
        let mp := download_progress_for_completed_parts cp
        if mp = s.last then ({ s with cp := cp }, none)
        else ({ last := mp, cp := cp }, some mp)
      else
        match map_download_progress pl.progress s.cp with
        | none => (s, none)
        | some mp =>
            if mp = s.last then (s, none)
            else ({ s with last := mp }, some mp)

/-- Runs the hook over a list of raw events from a given state,
collecting the published progress values. -/
def runHookFrom (s : HookState) : List RawStatus → List ℤ
  | [] => []
  | ev :: rest =>
      match hookStep s ev with
      | (s', some v) => v :: runHookFrom s' rest
      | (s', none) => runHookFrom s' rest

/-- The full download stage: hook state starts with
`last_download_progress = -1`, `completed_parts = 0`. -/
def runHook (evs : List RawStatus) : List ℤ :=
  runHookFrom ⟨-1, 0⟩ evs

/-- The raw percentage a downloading event feeds into
`map_download_progress` (the payload's `progress` entry). -/
def pctOf (ev : RawStatus) : Option ℤ :=
  (make_progress_payload ev).bind (fun pl => pl.progress)

/-- Well-formed raw event streams: the byte-ratio percentage is
non-decreasing between consecutive progress-bearing downloading
events of the same part, and at most `DOWNLOAD_PROGRESS_PARTS`
parts finish. -/
def monoOk : ℕ → ℤ → List RawStatus → Bool
  | _, _, [] => true
  | cp, p, ev :: rest =>
      if ev.status = some "finished" then
        decide (cp + 1 ≤ DOWNLOAD_PROGRESS_PARTS) && monoOk (cp + 1) 0 rest
      else
        match pctOf ev with
        | none => monoOk cp p rest
        | some q => decide (p ≤ q) && monoOk cp q rest

/-! ### `emit_progress` and `update_job_stage` (`video_ingest_progress.py`) -/

/-- A redis transport error (`redis.exceptions.RedisError`). -/
inductive RedisError where
  | err (msg : String)
deriving DecidableEq, Repr

/-- `emit_progress(project_id, payload)`: early-returns without a
project id or connection, clamps the progress entry, publishes, and
swallows any `RedisError` the transport raises.  The transport's
outcome is a parameter; the result is the exception behaviour seen
by the caller. -/
def emit_progress (project_id : String) (hasRedisConn : Bool)
    (payload : EventPayload)
    (transport : EventPayload → Except RedisError Unit) : Except RedisError Unit :=
  if project_id = "" ∨ hasRedisConn = false then .ok ()
  else
    let payload' := { payload with progress := payload.progress.map (fun p => clamp p 0 100) }
    match transport payload' with
    | .ok _ => .ok ()
    | .error _ => .ok ()

/-- The slice of rq job `meta` this code touches. -/
structure JobMeta where
  stage : Option String
  progress : Option ℤ
  s3_key : Option String
deriving DecidableEq, Repr

/-- `update_job_stage(job, stage, *, progress=None, **meta)`: no-op
without a job, else merges `{"stage": stage, **meta}` plus the
clamped progress into `job.meta`. -/
def update_job_stage (hasJob : Bool) (m : JobMeta) (stage : String)
    (progress : Option ℤ) (s3_key : Option String) : JobMeta :=
  if hasJob then
    { stage := some stage
      progress := match progress with
        | some p => some (clamp p 0 100)
        | none => m.progress
      s3_key := match s3_key with
        | some k => some k
        | none => m.s3_key }
  else m

/-! ### Document-store state (`app/api/project/service.py` and the
finalizer's collaborators) -/

/-- The fields of a project document this core reads or writes. -/
structure ProjectDoc where
  status : String
  video_source : Option String
  updated_at : ℕ
deriving DecidableEq, Repr

/-- A pipeline-stage record (status enum as its string value,
progress percentage). -/
structure PipelineRecord where
  status : String
  progress : ℤ
deriving DecidableEq, Repr

/-- An `HTTPException(status_code, detail)`. -/
structure HErr where
  status_code : ℕ
  detail : String
deriving DecidableEq, Repr

/-- Association-list lookup keyed by strings (a Mongo `find_one` by
id). -/
def alookup {β : Type} (k : String) : List (String × β) → Option β
  | [] => none
  | kv :: rest => if kv.1 = k then some kv.2 else alookup k rest

/-- `update_one({_id: k}, {$set: doc})`: replaces the matched
document's tracked fields, touching nothing when the id is absent. -/
def aset {β : Type} (l : List (String × β)) (k : String) (doc : β) : List (String × β) :=
  l.map (fun kv => if kv.1 = k then (kv.1, doc) else kv)

/-- Association-list upsert keyed by `(project_id, stage_id)`. -/
def upsertStage (l : List ((String × String) × PipelineRecord))
    (k : String × String) (v : PipelineRecord) : List ((String × String) × PipelineRecord) :=
  if (l.find? (fun kv => kv.1 = k)).isSome then
    l.map (fun kv => if kv.1 = k then (kv.1, v) else kv)
  else l ++ [(k, v)]

/-- The document store plus the downstream collaborators' visible
state: project documents, pipeline-stage records, and the downstream
jobs started so far. -/
structure Db where
  projects : List (String × ProjectDoc)
  pipeline : List ((String × String) × PipelineRecord)
  jobsStarted : List String
deriving DecidableEq, Repr

/-- `ProjectService.update_project` applied to the finalizer's
payload `{status, video_source, updated_at}`: `$set` update, then
`find_one`, then the two not-found checks, then the validated doc. -/
def update_project (db : Db) (project_id : String) (newStatus : String)
    (videoSource : String) (now : ℕ) : Db × Except HErr ProjectDoc :=
  let matched := (alookup project_id db.projects).isSome
  let projects' := aset db.projects project_id
    ⟨newStatus, some videoSource, now⟩
  let db1 := { db with projects := projects' }
  match alookup project_id projects' with
  | none => (db1, .error ⟨404, "Project not found"⟩)
  | some doc =>
      if matched then (db1, .ok doc)
      else (db1, .error ⟨404, "Project not found"⟩)

/-- Modelled from the spec: `start_job` (module
`app/api/jobs/service.py`, not under `src/`) starts the downstream
processing job for the just-updated project (spec section 4.6 step 2);
every invocation attempts the start. -/
def start_job (project_id : String) (db : Db) : Db :=
  { db with jobsStarted := db.jobsStarted ++ [project_id] }

/-- Modelled from the spec: `update_pipeline_stage` (module
`app/api/pipeline/service.py`, not under `src/`) re-marks the named
stage record with the given status and progress, a no-op-safe update
(spec section 4.6 step 3). -/
def update_pipeline_stage (db : Db) (project_id stage_id stageStatus : String)
    (progress : ℤ) : Db :=
  { db with pipeline := upsertStage db.pipeline (project_id, stage_id) ⟨stageStatus, progress⟩ }

/-- `finalize_ingest(project_id, object_key)` from
`video_ingest_finalizer.py`: update the project record, start the
downstream job, mark the `upload` pipeline stage completed at 100;
a raised `HTTPException` propagates and skips the remaining steps. -/
def finalize_ingest (db : Db) (project_id object_key : String) (now : ℕ) :
    Db × Except HErr Unit :=
  match update_project db project_id "upload_done" object_key now with
  | (db1, .error e) => (db1, .error e)
  | (db1, .ok _) =>
      let db2 := start_job project_id db1
      let db3 := update_pipeline_stage db2 project_id "upload" "completed" 100
      (db3, .ok ())

/-! ### The worker pipeline (`app/workers/jobs/video_ingest.py`) -/

/-- The outcomes of the external collaborators one job run touches:
whether rq handed us a job object and a redis connection exists, the
configured bucket, the yt-dlp download outcome together with the raw
hook events it fired, the object key built for the local file, the
S3 transfer outcome, and the wall clock used by `update_project`. -/
structure IngestEnv where
  hasJob : Bool
  hasRedisConn : Bool
  bucket : String
  download : Except String Unit
  rawEvents : List RawStatus
  objectKey : String
  upload : Except String Unit
  now : ℕ
deriving Repr

/-- The payload mapping handed to `run_ingest`. -/
structure IngestPayload where
  source_url : Option String
  project_id : Option String
deriving DecidableEq, Repr

/-- Python truthiness of an optional string. -/
def truthyStr : Option String → Bool
  | some s => !(s == "")
  | none => false

/-- One event published over the progress channel (its stage and
clamped progress value). -/
structure Emitted where
  stage : String
  progress : ℤ
deriving DecidableEq, Repr

/-- Appends one `emit_progress` call's message, honouring its
early-return on a falsy project id or missing connection. -/
def emitTo (hasRedisConn : Bool) (project_id : String) (events : List Emitted)
    (stage : String) (p : ℤ) : List Emitted :=
  if project_id = "" ∨ hasRedisConn = false then events
  else events ++ [⟨stage, clamp p 0 100⟩]

/-- Everything observable after one `_run_ingest_async` run: the rq
job meta and the ordered trace of its writes, the published events,
the document-store state, and the returned object key or raised
`HTTPException`. -/
structure RunResult where
  meta : JobMeta
  metaTrace : List (String × Option ℤ)
  events : List Emitted
  db : Db
  result : Except HErr String
deriving Repr

/-- The empty job meta a fresh run starts from. -/
def meta0 : JobMeta := ⟨none, none, none⟩

/-- `_run_ingest_async(payload)`: payload validation, bucket check,
the downloading stage (meta write 0, event 5, then the hook's
emissions), the uploading stage (71, then 92), finalizing (93),
`finalize_ingest`, and the done stage (100). -/
def _run_ingest_async (env : IngestEnv) (db : Db) (payload : IngestPayload) : RunResult :=
  if truthyStr payload.source_url = false ∨ truthyStr payload.project_id = false then
    ⟨meta0, [], [], db, .error ⟨400, "Invalid ingest payload"⟩⟩
  else if env.bucket = "" then
    ⟨meta0, [], [], db, .error ⟨500, "AWS_S3_BUCKET env not set"⟩⟩
  else
    let project_id := payload.project_id.getD ""
    let m1 := update_job_stage env.hasJob meta0 "downloading" (some 0) none
    let tr1 := if env.hasJob then [("downloading", some (0 : ℤ))] else []
    let ev1 := emitTo env.hasRedisConn project_id [] "downloading" 5
    let evDl := (runHook env.rawEvents).foldl
      (fun acc v => emitTo env.hasRedisConn project_id acc "downloading" v) ev1
    match env.download with
    | .error _ =>
        ⟨m1, tr1, evDl, db, .error ⟨400, "유튜브 영상을 다운로드할 수 없습니다."⟩⟩
    | .ok _ =>
        let object_key := env.objectKey
        let m2 := update_job_stage env.hasJob m1 "uploading" (some UPLOAD_PROGRESS_START) none
        let tr2 := tr1 ++ (if env.hasJob then [("uploading", some UPLOAD_PROGRESS_START)] else [])
        let ev2 := emitTo env.hasRedisConn project_id evDl "uploading" UPLOAD_PROGRESS_START
        match env.upload with
        | .error _ =>
            ⟨m2, tr2, ev2, db, .error ⟨502, "S3 업로드 중 오류가 발생했습니다."⟩⟩
        | .ok _ =>
            let ev3 := emitTo env.hasRedisConn project_id ev2 "uploading" UPLOAD_PROGRESS_DONE
            let m3 := update_job_stage env.hasJob m2 "finalizing" (some FINALIZE_PROGRESS_START) none
            let tr3 := tr2 ++ (if env.hasJob then [("finalizing", some FINALIZE_PROGRESS_START)] else [])
            let ev4 := emitTo env.hasRedisConn project_id ev3 "finalizing" FINALIZE_PROGRESS_START
            match finalize_ingest db project_id object_key env.now with
            | (db1, .error e) => ⟨m3, tr3, ev4, db1, .error e⟩
            | (db1, .ok _) =>
                let m4 := update_job_stage env.hasJob m3 "done"
                  (some FINALIZE_PROGRESS_DONE) (some object_key)
                let tr4 := tr3 ++ (if env.hasJob then [("done", some FINALIZE_PROGRESS_DONE)] else [])
                let ev5 := emitTo env.hasRedisConn project_id ev4 "done" FINALIZE_PROGRESS_DONE
                ⟨m4, tr4, ev5, db1, .ok object_key⟩

/-- Queue-level job status (rq's `JobStatus`). -/
inductive QueueStatus where
  | queued
  | started
  | finished
  | failed
deriving DecidableEq, Repr

/-- A completed job run as the queue records it. -/
structure JobOutcome where
  status : QueueStatus
  error : Option HErr
  run : RunResult
deriving Repr

/-- Modelled from the spec: the rq worker runtime that executes
`run_ingest` (the rq library is not part of `src/`); per the queue
contract it marks the job finished on normal return and moves it to
failed on an exception, recording the causing error with the job
(spec sections 2, 4.3 and 7). -/
def runIngestJob (env : IngestEnv) (db : Db) (payload : IngestPayload) : JobOutcome :=
  let r := _run_ingest_async env db payload
  match r.result with
  | .ok _ => ⟨.finished, none, r⟩
  | .error e => ⟨.failed, some e, r⟩

/-! ### Idempotent dispatch (`app/api/storage/routes.py`) -/

/-- A `RegisterRequest` body. -/
structure RegisterRequest where
  project_id : String
  youtube_url : String
deriving DecidableEq, Repr

/-- `_make_idem_key(req, header_key)`: the header value when truthy,
else a digest of `"{project_id}|{youtube_url}"`.  The digest function
(`hashlib.sha256(...).hexdigest()`) is a parameter. -/
def _make_idem_key (digest : String → String) (req : RegisterRequest)
    (header_key : Option String) : String :=
  match header_key with
  | some k => if k = "" then digest (req.project_id ++ "|" ++ req.youtube_url) else k
  | none => digest (req.project_id ++ "|" ++ req.youtube_url)

/-- One rq job as the route observes it. -/
structure QueueJob where
  id : String
  origin : String
  status : String
  meta_stage : Option String
deriving DecidableEq, Repr

/-- The route's response shape. -/
structure RegisterResponse where
  job_id : String
  queue : String
  status : String
  stage : Option String
deriving DecidableEq, Repr

/-- `fetch_job(job_id)` on the uploads queue. -/
def fetch_job (q : List QueueJob) (job_id : String) : Option QueueJob :=
  q.find? (fun j => j.id == job_id)

/-- `register_source(payload, request)` on the happy broker path:
derive the idempotency key, return the existing job if the queue
already has one for it, otherwise enqueue a fresh job under that
key. -/
def register_source (digest : String → String) (q : List QueueJob)
    (payload : RegisterRequest) (header_key : Option String) :
    List QueueJob × RegisterResponse :=
  let job_id := _make_idem_key digest payload header_key
  match fetch_job q job_id with
  | some j => (q, ⟨j.id, j.origin, j.status, j.meta_stage⟩)
  | none =>
      let j : QueueJob := ⟨job_id, "uploads", "queued", some "queued"⟩
      (q ++ [j], ⟨j.id, j.origin, j.status, j.meta_stage⟩)

/-! ### Arithmetic facts about the mapper's numeric core -/

/-- The value `map_download_progress` produces for a present raw
percentage.  `map_download_progress (some q) cp = some (dlVal cp q)`
holds by definition. -/
def dlVal (cp : ℕ) (q : ℤ) : ℤ :=
  clamp (pyInt ((DOWNLOAD_PROGRESS_START : ℚ) +
    (cp : ℚ) * _download_part_span + ((q : ℚ) / 100) * _download_part_span)) 0 100

lemma map_download_progress_some (q : ℤ) (cp : ℕ) :
    map_download_progress (some q) cp = some (dlVal cp q) := rfl

lemma span_eq : _download_part_span = 65 / 2 := by
  norm_num [_download_part_span, DOWNLOAD_PROGRESS_MAX, DOWNLOAD_PROGRESS_START,
    DOWNLOAD_PROGRESS_PARTS]

lemma pyInt_mono {a b : ℚ} (h : a ≤ b) : pyInt a ≤ pyInt b := by
  unfold pyInt
  split
  · split
    · exact Int.ceil_mono h
    · calc ⌈a⌉ ≤ 0 := Int.ceil_le.mpr (by push_cast; linarith)
        _ ≤ ⌊b⌋ := Int.floor_nonneg.mpr (by linarith)
  · split
    · exact absurd (lt_of_le_of_lt h (by assumption)) (by assumption)
    · exact Int.floor_mono h

lemma pyInt_of_nonneg {q : ℚ} (h : 0 ≤ q) : pyInt q = ⌊q⌋ := by
  unfold pyInt
  rw [if_neg (not_lt.mpr h)]

lemma clamp_mono {a b lo hi : ℤ} (h : a ≤ b) : clamp a lo hi ≤ clamp b lo hi :=
  max_le_max le_rfl (min_le_min le_rfl h)

lemma le_clamp_of_le {v lo hi c : ℤ} (hcv : c ≤ v) (hch : c ≤ hi) :
    c ≤ clamp v lo hi :=
  le_trans (le_min hch hcv) (le_max_right _ _)

lemma clamp_le_of_le {v lo hi c : ℤ} (hv : v ≤ c) (hl : lo ≤ c) :
    clamp v lo hi ≤ c :=
  max_le hl (le_trans (min_le_right _ _) hv)

lemma clamp_lower (v lo hi : ℤ) : lo ≤ clamp v lo hi := le_max_left _ _

lemma clamp_upper {v lo hi : ℤ} (h : lo ≤ hi) : clamp v lo hi ≤ hi :=
  max_le h (min_le_left _ _)

lemma dlVal_mono {cp : ℕ} {q q' : ℤ} (h : q ≤ q') : dlVal cp q ≤ dlVal cp q' := by
  refine clamp_mono (pyInt_mono ?_)
  have hq : (q : ℚ) ≤ (q' : ℚ) := by exact_mod_cast h
  rw [span_eq]
  linarith

lemma dlVal_le_next_part {cp : ℕ} {q : ℤ} (hq : q ≤ 100)
    (hcp : cp + 1 ≤ DOWNLOAD_PROGRESS_PARTS) :
    dlVal cp q ≤ download_progress_for_completed_parts (cp + 1) := by
  unfold dlVal download_progress_for_completed_parts
  rw [Nat.min_eq_left hcp]
  refine clamp_mono (pyInt_mono ?_)
  have hq' : (q : ℚ) ≤ 100 := by exact_mod_cast hq
  rw [span_eq]
  push_cast
  linarith

lemma part_le_dlVal {cp : ℕ} {q : ℤ} (hq : 0 ≤ q)
    (hcp : cp ≤ DOWNLOAD_PROGRESS_PARTS) :
    download_progress_for_completed_parts cp ≤ dlVal cp q := by
  unfold dlVal download_progress_for_completed_parts
  rw [Nat.min_eq_left hcp]
  refine clamp_mono (pyInt_mono ?_)
  have hq' : (0 : ℚ) ≤ (q : ℚ) := by exact_mod_cast hq
  rw [span_eq]
  linarith

/-! ### Behavioural lemmas for the progress hook -/

lemma make_progress_payload_of_finished {ev : RawStatus}
    (h : ev.status = some "finished") :
    ∃ pl : EventPayload, make_progress_payload ev = some pl := by
  unfold make_progress_payload
  rw [if_pos (Or.inr h)]
  exact ⟨_, rfl⟩

lemma hookStep_finished {s : HookState} {ev : RawStatus}
    (h : ev.status = some "finished") :
    hookStep s ev =
      (if download_progress_for_completed_parts (min (s.cp + 1) DOWNLOAD_PROGRESS_PARTS) = s.last
        then ({ s with cp := min (s.cp + 1) DOWNLOAD_PROGRESS_PARTS }, none)
        else (⟨download_progress_for_completed_parts (min (s.cp + 1) DOWNLOAD_PROGRESS_PARTS),
          min (s.cp + 1) DOWNLOAD_PROGRESS_PARTS⟩,
          some (download_progress_for_completed_parts (min (s.cp + 1) DOWNLOAD_PROGRESS_PARTS)))) := by
  obtain ⟨pl, hpl⟩ := make_progress_payload_of_finished h
  simp only [hookStep, hpl, if_pos h]

lemma hookStep_skip {s : HookState} {ev : RawStatus}
    (hfin : ¬ ev.status = some "finished") (hq : pctOf ev = none) :
    hookStep s ev = (s, none) := by
  unfold pctOf at hq
  cases hpl : make_progress_payload ev with
  | none => simp only [hookStep, hpl]
  | some pl =>
      rw [hpl] at hq
      simp only [Option.some_bind] at hq
      simp only [hookStep, hpl, if_neg hfin, hq, map_download_progress]

lemma hookStep_downloading {s : HookState} {ev : RawStatus} {q : ℤ}
    (hfin : ¬ ev.status = some "finished") (hq : pctOf ev = some q) :
    hookStep s ev =
      (if dlVal s.cp q = s.last then (s, none)
        else ({ s with last := dlVal s.cp q }, some (dlVal s.cp q))) := by
  unfold pctOf at hq
  cases hpl : make_progress_payload ev with
  | none => rw [hpl] at hq; simp at hq
  | some pl =>
      rw [hpl] at hq
      simp only [Option.some_bind] at hq
      simp only [hookStep, hpl, if_neg hfin, hq, map_download_progress_some]

lemma hookStep_emit_bounds {s s' : HookState} {ev : RawStatus} {v : ℤ}
    (h : hookStep s ev = (s', some v)) : 0 ≤ v ∧ v ≤ 100 := by
  by_cases hfin : ev.status = some "finished"
  · rw [hookStep_finished hfin] at h
    split at h
    · simp at h
    · simp only [Prod.mk.injEq, Option.some.injEq] at h
      obtain ⟨-, hv⟩ := h
      subst hv
      exact ⟨clamp_lower _ _ _, clamp_upper (by norm_num)⟩
  · cases hq : pctOf ev with
    | none => rw [hookStep_skip hfin hq] at h; simp at h
    | some q =>
        rw [hookStep_downloading hfin hq] at h
        split at h
        · simp at h
        · simp only [Prod.mk.injEq, Option.some.injEq] at h
          obtain ⟨-, hv⟩ := h
          subst hv
          exact ⟨clamp_lower _ _ _, clamp_upper (by norm_num)⟩

lemma hookStep_emit_ne {s s' : HookState} {ev : RawStatus} {v : ℤ}
    (h : hookStep s ev = (s', some v)) : v ≠ s.last ∧ s'.last = v := by
  by_cases hfin : ev.status = some "finished"
  · rw [hookStep_finished hfin] at h
    split at h
    · simp at h
    · simp only [Prod.mk.injEq, Option.some.injEq] at h
      obtain ⟨hs, hv⟩ := h
      subst hv
      exact ⟨by assumption, by rw [← hs]⟩
  · cases hq : pctOf ev with
    | none => rw [hookStep_skip hfin hq] at h; simp at h
    | some q =>
        rw [hookStep_downloading hfin hq] at h
        split at h
        · simp at h
        · simp only [Prod.mk.injEq, Option.some.injEq] at h
          obtain ⟨hs, hv⟩ := h
          subst hv
          exact ⟨by assumption, by rw [← hs]⟩

lemma hookStep_none_last {s s' : HookState} {ev : RawStatus}
    (h : hookStep s ev = (s', none)) : s'.last = s.last := by
  by_cases hfin : ev.status = some "finished"
  · rw [hookStep_finished hfin] at h
    split at h
    · simp only [Prod.mk.injEq] at h
      obtain ⟨hs, -⟩ := h
      rw [← hs]
    · simp at h
  · cases hq : pctOf ev with
    | none =>
        rw [hookStep_skip hfin hq] at h
        simp only [Prod.mk.injEq] at h
        obtain ⟨hs, -⟩ := h
        rw [← hs]
    | some q =>
        rw [hookStep_downloading hfin hq] at h
        split at h
        · simp only [Prod.mk.injEq] at h
          obtain ⟨hs, -⟩ := h
          rw [← hs]
        · simp at h

lemma pctOf_bounds {ev : RawStatus} {q : ℤ}
    (hfin : ¬ ev.status = some "finished") (h : pctOf ev = some q) :
    0 ≤ q ∧ q ≤ 70 := by
  unfold pctOf make_progress_payload at h
  by_cases hcond : ev.status = some "downloading" ∨ ev.status = some "finished"
  · rw [if_pos hcond] at h
    simp only [Option.some_bind, if_neg hfin] at h
    split at h
    · split at h
      · simp at h
      · simp only [Option.some.injEq] at h
        subst h
        refine ⟨clamp_lower _ _ _, clamp_upper ?_⟩
        norm_num [DOWNLOAD_PROGRESS_MAX]
    · simp at h
  · rw [if_neg hcond] at h
    simp at h

lemma monoOk_cons_finished {cp : ℕ} {p : ℤ} {ev : RawStatus} {rest : List RawStatus}
    (hfin : ev.status = some "finished")
    (h : monoOk cp p (ev :: rest) = true) :
    cp + 1 ≤ DOWNLOAD_PROGRESS_PARTS ∧ monoOk (cp + 1) 0 rest = true := by
  simp only [monoOk, if_pos hfin, Bool.and_eq_true, decide_eq_true_eq] at h
  exact h

lemma monoOk_cons_skip {cp : ℕ} {p : ℤ} {ev : RawStatus} {rest : List RawStatus}
    (hfin : ¬ ev.status = some "finished") (hq : pctOf ev = none)
    (h : monoOk cp p (ev :: rest) = true) :
    monoOk cp p rest = true := by
  simp only [monoOk, if_neg hfin, hq] at h
  exact h

lemma monoOk_cons_dl {cp : ℕ} {p q : ℤ} {ev : RawStatus} {rest : List RawStatus}
    (hfin : ¬ ev.status = some "finished") (hq : pctOf ev = some q)
    (h : monoOk cp p (ev :: rest) = true) :
    p ≤ q ∧ monoOk cp q rest = true := by
  simp only [monoOk, if_neg hfin, hq, Bool.and_eq_true, decide_eq_true_eq] at h
  exact h

/-- The invariant behind progress monotonicity: from a hook state
whose last published value is below the value of the pending
percentage, a well-formed stream only publishes a non-decreasing
chain. -/
lemma runHookFrom_chain_le (evs : List RawStatus) :
    ∀ (s : HookState) (p : ℤ),
      monoOk s.cp p evs = true → p ≤ 100 → s.last ≤ dlVal s.cp p →
      List.Chain (· ≤ ·) s.last (runHookFrom s evs) := by
  induction evs with
  | nil => intro s p _ _ _; exact List.Chain.nil
  | cons ev rest ih =>
      intro s p hmono hp hlast
      by_cases hfin : ev.status = some "finished"
      · obtain ⟨hcp1, hmono'⟩ := monoOk_cons_finished hfin hmono
        have hmin : min (s.cp + 1) DOWNLOAD_PROGRESS_PARTS = s.cp + 1 :=
          Nat.min_eq_left hcp1
        have hstep := hookStep_finished (s := s) hfin
        rw [hmin] at hstep
        have hle : s.last ≤ download_progress_for_completed_parts (s.cp + 1) :=
          le_trans hlast (dlVal_le_next_part hp hcp1)
        have hnext : download_progress_for_completed_parts (s.cp + 1) ≤
            dlVal (s.cp + 1) 0 := part_le_dlVal le_rfl hcp1
        by_cases heq : download_progress_for_completed_parts (s.cp + 1) = s.last
        · rw [if_pos heq] at hstep
          simp only [runHookFrom, hstep]
          have := ih { s with cp := s.cp + 1 } 0 hmono' (by norm_num)
            (by simpa [heq] using hnext)
          simpa using this
        · rw [if_neg heq] at hstep
          simp only [runHookFrom, hstep]
          refine List.Chain.cons hle ?_
          exact ih ⟨download_progress_for_completed_parts (s.cp + 1), s.cp + 1⟩ 0
            hmono' (by norm_num) (by simpa using hnext)
      · cases hq : pctOf ev with
        | none =>
            have hmono' := monoOk_cons_skip hfin hq hmono
            simp only [runHookFrom, hookStep_skip hfin hq]
            exact ih s p hmono' hp hlast
        | some q =>
            obtain ⟨hpq, hmono'⟩ := monoOk_cons_dl hfin hq hmono
            obtain ⟨hq0, hq70⟩ := pctOf_bounds hfin hq
            have hstep := hookStep_downloading (s := s) hfin hq
            have hmapmono : dlVal s.cp p ≤ dlVal s.cp q := dlVal_mono hpq
            by_cases heq : dlVal s.cp q = s.last
            · rw [if_pos heq] at hstep
              simp only [runHookFrom, hstep]
              exact ih s q hmono' (by linarith) heq.symm.le
            · rw [if_neg heq] at hstep
              simp only [runHookFrom, hstep]
              refine List.Chain.cons (le_trans hlast hmapmono) ?_
              exact ih { s with last := dlVal s.cp q } q hmono' (by linarith) le_rfl

/-- Every value the hook publishes passes through `clamp(_, 0, 100)`. -/
lemma runHookFrom_mem_bounds (evs : List RawStatus) :
    ∀ (s : HookState), ∀ v ∈ runHookFrom s evs, 0 ≤ v ∧ v ≤ 100 := by
  induction evs with
  | nil => intro s v hv; simp [runHookFrom] at hv
  | cons ev rest ih =>
      intro s v hv
      simp only [runHookFrom] at hv
      rcases hstep : hookStep s ev with ⟨s', w⟩
      rw [hstep] at hv
      cases w with
      | none => exact ih s' v hv
      | some w0 =>
          rcases List.mem_cons.mp hv with h | h
          · subst h; exact hookStep_emit_bounds hstep
          · exact ih s' v h

/-- Consecutive published values always differ: publishing is
guarded by inequality with the last published value. -/
lemma runHookFrom_chain_ne (evs : List RawStatus) :
    ∀ (s : HookState), List.Chain (· ≠ ·) s.last (runHookFrom s evs) := by
  induction evs with
  | nil => intro s; exact List.Chain.nil
  | cons ev rest ih =>
      intro s
      simp only [runHookFrom]
      rcases hstep : hookStep s ev with ⟨s', w⟩
      cases w with
      | none =>
          have hl := hookStep_none_last hstep
          have := ih s'
          rw [hl] at this
          exact this
      | some v =>
          obtain ⟨hne, hlast⟩ := hookStep_emit_ne hstep
          refine List.Chain.cons (Ne.symm hne) ?_
          have := ih s'
          rw [hlast] at this
          exact this

/-- A chain from a seed value yields a chain on the list itself. -/
lemma chain'_of_chain {R : ℤ → ℤ → Prop} {a : ℤ} {l : List ℤ}
    (h : List.Chain R a l) : List.Chain' R l := by
  cases l with
  | nil => trivial
  | cons b l' => exact (List.chain_cons.mp h).2

/-! ### Claim theorems for the Progress Mapper -/

/-- C2 (counterexample): two raw downloading events whose byte ratio
drops from 50% to 10% make the hook publish 21 and then 8 — the
emitted sequence is not non-decreasing, contradicting the claim that
it is for every raw event sequence. -/
theorem progress_stream_mono_counterexample :
    runHook [⟨some "downloading", some 100, none, some 50, none⟩,
      ⟨some "downloading", some 100, none, some 10, none⟩] = [21, 8] ∧
    ¬ List.Chain' (fun a b => a ≤ b)
      (runHook [⟨some "downloading", some 100, none, some 50, none⟩,
        ⟨some "downloading", some 100, none, some 10, none⟩]) := by
  have hpl1 : make_progress_payload ⟨some "downloading", some 100, none, some 50, none⟩ =
      some ⟨some "downloading", some 50, none⟩ := by
    simp only [make_progress_payload, pyOrNat]
    norm_num [pyInt, clamp, Rat.floor_def, DOWNLOAD_PROGRESS_MAX]
    decide
  have hpl2 : make_progress_payload ⟨some "downloading", some 100, none, some 10, none⟩ =
      some ⟨some "downloading", some 10, none⟩ := by
    simp only [make_progress_payload, pyOrNat]
    norm_num [pyInt, clamp, Rat.floor_def, DOWNLOAD_PROGRESS_MAX]
    decide
  have hmap1 : map_download_progress (some 50) 0 = some 21 := by
    simp only [map_download_progress, _download_part_span, DOWNLOAD_PROGRESS_START,
      DOWNLOAD_PROGRESS_MAX, DOWNLOAD_PROGRESS_PARTS, pyInt, clamp]
    norm_num [Rat.floor_def]
  have hmap2 : map_download_progress (some 10) 0 = some 8 := by
    simp only [map_download_progress, _download_part_span, DOWNLOAD_PROGRESS_START,
      DOWNLOAD_PROGRESS_MAX, DOWNLOAD_PROGRESS_PARTS, pyInt, clamp]
    norm_num [Rat.floor_def]
  have hstep1 : hookStep ⟨-1, 0⟩ ⟨some "downloading", some 100, none, some 50, none⟩ =
      (⟨21, 0⟩, some 21) := by
    simp [hookStep, hpl1, hmap1]
  have hstep2 : hookStep ⟨21, 0⟩ ⟨some "downloading", some 100, none, some 10, none⟩ =
      (⟨8, 0⟩, some 8) := by
    simp [hookStep, hpl2, hmap2]
  have hrun : runHook [⟨some "downloading", some 100, none, some 50, none⟩,
      ⟨some "downloading", some 100, none, some 10, none⟩] = [21, 8] := by
    simp [runHook, runHookFrom, hstep1, hstep2]
  refine ⟨hrun, ?_⟩
  rw [hrun]
  intro h
  have h21 : (21 : ℤ) ≤ 8 := (List.chain'_cons.mp h).1
  omega

/-- C2 (amended): every progress value the hook publishes lies in
[0, 100]; and for raw event streams whose byte-ratio percentages do
not decrease within a part and which finish at most
`DOWNLOAD_PROGRESS_PARTS` parts, the published sequence is
non-decreasing. -/
theorem progress_stream_bounds_and_mono (evs : List RawStatus) :
    (∀ v ∈ runHook evs, 0 ≤ v ∧ v ≤ 100) ∧
    (monoOk 0 0 evs = true → List.Chain' (fun a b => a ≤ b) (runHook evs)) := by
  refine ⟨runHookFrom_mem_bounds evs ⟨-1, 0⟩, fun hm => ?_⟩
  refine chain'_of_chain (runHookFrom_chain_le evs ⟨-1, 0⟩ 0 hm (by norm_num) ?_)
  exact le_trans (by norm_num) (clamp_lower _ _ _)

/-- C2 (witness): the amended theorem applied to a concrete
well-formed stream of two part-completion events. -/
theorem progress_stream_bounds_and_mono_witness :
    (∀ v ∈ runHook [⟨some "finished", none, none, none, none⟩,
        ⟨some "finished", none, none, none, none⟩], 0 ≤ v ∧ v ≤ 100) ∧
    List.Chain' (fun a b => a ≤ b)
      (runHook [⟨some "finished", none, none, none, none⟩,
        ⟨some "finished", none, none, none, none⟩]) :=
  ⟨(progress_stream_bounds_and_mono _).1,
    (progress_stream_bounds_and_mono
      [⟨some "finished", none, none, none, none⟩,
        ⟨some "finished", none, none, none, none⟩]).2 (by decide)⟩

/-- C3: with two download parts, finishing part 1 maps to 37 and
finishing part 2 maps to 70, and the upload/finalize stage markers
are the constants 71, 92, 93 and 100. -/
theorem progress_partition_markers :
    download_progress_for_completed_parts 1 = 37 ∧
    download_progress_for_completed_parts 2 = 70 ∧
    UPLOAD_PROGRESS_START = 71 ∧ UPLOAD_PROGRESS_DONE = 92 ∧
    FINALIZE_PROGRESS_START = 93 ∧ FINALIZE_PROGRESS_DONE = 100 := by
  refine ⟨?_, ?_, rfl, rfl, rfl, rfl⟩ <;>
  · simp only [download_progress_for_completed_parts, _download_part_span,
      DOWNLOAD_PROGRESS_START, DOWNLOAD_PROGRESS_MAX, DOWNLOAD_PROGRESS_PARTS, pyInt, clamp]
    norm_num [Rat.floor_def]

/-- C7 (counterexample): after both parts have finished, a further
downloading event at 4% maps to 71 — outside [5, 70] — and the hook
publishes it, so mapped download-stage values are not always within
the download span. -/
theorem map_download_progress_span_counterexample :
    map_download_progress (some 4) 2 = some 71 ∧
    runHook [⟨some "finished", none, none, none, none⟩,
      ⟨some "finished", none, none, none, none⟩,
      ⟨some "downloading", some 100, none, some 4, none⟩] = [37, 70, 71] ∧
    ¬ ((71 : ℤ) ≤ 70) := by
  have hmap : map_download_progress (some 4) 2 = some 71 := by
    simp only [map_download_progress, _download_part_span, DOWNLOAD_PROGRESS_START,
      DOWNLOAD_PROGRESS_MAX, DOWNLOAD_PROGRESS_PARTS, pyInt, clamp]
    norm_num [Rat.floor_def]
  have hf1 : download_progress_for_completed_parts 1 = 37 :=
    progress_partition_markers.1
  have hf2 : download_progress_for_completed_parts 2 = 70 :=
    progress_partition_markers.2.1
  have hplf : make_progress_payload ⟨some "finished", none, none, none, none⟩ =
      some ⟨some "finished", some 100, none⟩ := by
    simp [make_progress_payload, pyOrNat]
  have hpl3 : make_progress_payload ⟨some "downloading", some 100, none, some 4, none⟩ =
      some ⟨some "downloading", some 4, none⟩ := by
    simp only [make_progress_payload, pyOrNat]
    norm_num [pyInt, clamp, Rat.floor_def, DOWNLOAD_PROGRESS_MAX]
    decide
  have hstep1 : hookStep ⟨-1, 0⟩ ⟨some "finished", none, none, none, none⟩ =
      (⟨37, 1⟩, some 37) := by
    simp [hookStep, hplf, DOWNLOAD_PROGRESS_PARTS, hf1]
  have hstep2 : hookStep ⟨37, 1⟩ ⟨some "finished", none, none, none, none⟩ =
      (⟨70, 2⟩, some 70) := by
    simp [hookStep, hplf, DOWNLOAD_PROGRESS_PARTS, hf2]
  have hstep3 : hookStep ⟨70, 2⟩ ⟨some "downloading", some 100, none, some 4, none⟩ =
      (⟨71, 2⟩, some 71) := by
    simp [hookStep, hpl3, hmap]
  refine ⟨hmap, ?_, by decide⟩
  simp [runHook, runHookFrom, hstep1, hstep2, hstep3]

/-- C7 (amended): for every hook-reachable input — raw percentage in
[0, 70] and completed-parts count at most 2 — the mapped value is
floored and clamped, lies in [5, 92], and stays within the download
span [5, 70] as long as some part is still unfinished. -/
theorem map_download_progress_stage_bounds (q : ℤ) (cp : ℕ) (v : ℤ)
    (hq0 : 0 ≤ q) (hq70 : q ≤ 70) (hcp : cp ≤ 2)
    (h : map_download_progress (some q) cp = some v) :
    5 ≤ v ∧ v ≤ 92 ∧ (cp < 2 → v ≤ 70) := by
  rw [map_download_progress_some, Option.some.injEq] at h
  subst h
  unfold dlVal
  rw [span_eq]
  have hcpQ : (cp : ℚ) ≤ 2 := by exact_mod_cast hcp
  have hcp0 : (0 : ℚ) ≤ (cp : ℚ) := Nat.cast_nonneg cp
  have hqQ : (q : ℚ) ≤ 70 := by exact_mod_cast hq70
  have hq0Q : (0 : ℚ) ≤ (q : ℚ) := by exact_mod_cast hq0
  have hX0 : (0 : ℚ) ≤ (DOWNLOAD_PROGRESS_START : ℚ) + (cp : ℚ) * (65 / 2) +
      ((q : ℚ) / 100) * (65 / 2) := by
    norm_num [DOWNLOAD_PROGRESS_START]
    linarith
  rw [pyInt_of_nonneg hX0]
  have h5 : (5 : ℤ) ≤ ⌊(DOWNLOAD_PROGRESS_START : ℚ) + (cp : ℚ) * (65 / 2) +
      ((q : ℚ) / 100) * (65 / 2)⌋ := by
    refine Int.le_floor.mpr ?_
    push_cast
    norm_num [DOWNLOAD_PROGRESS_START]
    linarith
  have h92 : ⌊(DOWNLOAD_PROGRESS_START : ℚ) + (cp : ℚ) * (65 / 2) +
      ((q : ℚ) / 100) * (65 / 2)⌋ ≤ 92 := by
    have hlt : ⌊(DOWNLOAD_PROGRESS_START : ℚ) + (cp : ℚ) * (65 / 2) +
        ((q : ℚ) / 100) * (65 / 2)⌋ < 93 := by
      refine Int.floor_lt.mpr ?_
      push_cast
      norm_num [DOWNLOAD_PROGRESS_START]
      linarith
    omega
  refine ⟨le_clamp_of_le h5 (by norm_num), clamp_le_of_le h92 (by norm_num), fun hcp2 => ?_⟩
  have hcp1 : cp ≤ 1 := by omega
  have hcpQ1 : (cp : ℚ) ≤ 1 := by exact_mod_cast hcp1
  have h70 : ⌊(DOWNLOAD_PROGRESS_START : ℚ) + (cp : ℚ) * (65 / 2) +
      ((q : ℚ) / 100) * (65 / 2)⌋ ≤ 70 := by
    have hlt : ⌊(DOWNLOAD_PROGRESS_START : ℚ) + (cp : ℚ) * (65 / 2) +
        ((q : ℚ) / 100) * (65 / 2)⌋ < 71 := by
      refine Int.floor_lt.mpr ?_
      push_cast
      norm_num [DOWNLOAD_PROGRESS_START]
      linarith
    omega
  exact clamp_le_of_le h70 (by norm_num)

/-- C7 (witness): the amended bounds at raw percentage 50 with no
parts completed, where the mapper yields 21. -/
theorem map_download_progress_stage_bounds_witness :
    5 ≤ (21 : ℤ) ∧ (21 : ℤ) ≤ 92 ∧ ((0 : ℕ) < 2 → (21 : ℤ) ≤ 70) :=
  map_download_progress_stage_bounds 50 0 21 (by decide) (by decide) (by decide)
    (by simp only [map_download_progress, _download_part_span, DOWNLOAD_PROGRESS_START,
          DOWNLOAD_PROGRESS_MAX, DOWNLOAD_PROGRESS_PARTS, pyInt, clamp]
        norm_num [Rat.floor_def])

/-- C8: the hook never publishes the same value twice in a row — any
two consecutive published progress values differ, for every raw
event sequence. -/
theorem published_progress_no_consecutive_duplicates (evs : List RawStatus) :
    List.Chain' (fun a b => a ≠ b) (runHook evs) :=
  chain'_of_chain (runHookFrom_chain_ne evs ⟨-1, 0⟩)

/-! ### Association-list lemmas for the document-store model -/

lemma alookup_aset {β : Type} (l : List (String × β)) (k : String) (doc : β) :
    alookup k (aset l k doc) = (alookup k l).map (fun _ => doc) := by
  induction l with
  | nil => rfl
  | cons kv rest ih =>
      by_cases hk : kv.1 = k
      · simp [aset, alookup, hk]
      · simpa [aset, alookup, hk] using ih

lemma aset_of_none {β : Type} {l : List (String × β)} {k : String}
    (h : alookup k l = none) (doc : β) : aset l k doc = l := by
  induction l with
  | nil => rfl
  | cons kv rest ih =>
      by_cases hk : kv.1 = k
      · rw [alookup, if_pos hk] at h
        exact absurd h (by simp)
      · rw [alookup, if_neg hk] at h
        simp [aset, hk] at ih ⊢
        exact ih h

lemma update_project_found {db : Db} {pid : String} {d : ProjectDoc}
    (st vs : String) (now : ℕ) (h : alookup pid db.projects = some d) :
    update_project db pid st vs now =
      ({ db with projects := aset db.projects pid ⟨st, some vs, now⟩ },
        .ok ⟨st, some vs, now⟩) := by
  have hl : alookup pid (aset db.projects pid ⟨st, some vs, now⟩) =
      some ⟨st, some vs, now⟩ := by
    rw [alookup_aset, h]
    rfl
  simp [update_project, hl, h]

lemma update_project_missing {db : Db} {pid : String}
    (st vs : String) (now : ℕ) (h : alookup pid db.projects = none) :
    update_project db pid st vs now = (db, .error ⟨404, "Project not found"⟩) := by
  have hl : alookup pid (aset db.projects pid ⟨st, some vs, now⟩) = none := by
    rw [alookup_aset, h]
    rfl
  simp [update_project, hl, h, aset_of_none h]

lemma finalize_ingest_found {db : Db} {pid : String} {d : ProjectDoc}
    (key : String) (now : ℕ) (h : alookup pid db.projects = some d) :
    finalize_ingest db pid key now =
      (⟨aset db.projects pid ⟨"upload_done", some key, now⟩,
        upsertStage db.pipeline (pid, "upload") ⟨"completed", 100⟩,
        db.jobsStarted ++ [pid]⟩, .ok ()) := by
  simp [finalize_ingest, update_project_found "upload_done" key now h,
    start_job, update_pipeline_stage]

lemma finalize_ingest_missing {db : Db} {pid : String} (key : String) (now : ℕ)
    (h : alookup pid db.projects = none) :
    finalize_ingest db pid key now = (db, .error ⟨404, "Project not found"⟩) := by
  simp [finalize_ingest, update_project_missing "upload_done" key now h]

lemma finalize_error_state {db db1 : Db} {pid key : String} {now : ℕ} {e : HErr}
    (h : finalize_ingest db pid key now = (db1, .error e)) : db1 = db := by
  cases hl : alookup pid db.projects with
  | some d =>
      rw [finalize_ingest_found key now hl] at h
      simp at h
  | none =>
      rw [finalize_ingest_missing key now hl] at h
      simp only [Prod.mk.injEq] at h
      exact h.1.symm

/-! ### Claim theorems for dispatch and finalization -/

/-- C1: two `register_source` calls with the same request and no
idempotency header return the same job id, the second call leaves the
queue untouched, and across both calls at most one job is created. -/
theorem register_source_idempotent (digest : String → String)
    (q : List QueueJob) (req : RegisterRequest) :
    ((register_source digest (register_source digest q req none).1 req none).2).job_id =
      ((register_source digest q req none).2).job_id ∧
    (register_source digest (register_source digest q req none).1 req none).1 =
      (register_source digest q req none).1 ∧
    ((register_source digest q req none).1).length ≤ q.length + 1 := by
  unfold register_source _make_idem_key
  cases hf : fetch_job q (digest (req.project_id ++ "|" ++ req.youtube_url)) with
  | some j => simp [hf]
  | none =>
      have hf2 : fetch_job
          (q ++ [⟨digest (req.project_id ++ "|" ++ req.youtube_url),
            "uploads", "queued", some "queued"⟩])
          (digest (req.project_id ++ "|" ++ req.youtube_url)) =
          some ⟨digest (req.project_id ++ "|" ++ req.youtube_url),
            "uploads", "queued", some "queued"⟩ := by
        unfold fetch_job at hf ⊢
        rw [List.find?_append, hf]
        simp
      simp [hf, hf2]

/-- C4: when the project exists, running `finalize_ingest` twice
succeeds both times and leaves the project record with status
`upload_done` and video-source pointer equal to the object key after
each run. -/
theorem finalize_ingest_idempotent (db : Db) (pid key : String) (t1 t2 : ℕ)
    (d : ProjectDoc) (h : alookup pid db.projects = some d) :
    (finalize_ingest db pid key t1).2 = .ok () ∧
    (finalize_ingest (finalize_ingest db pid key t1).1 pid key t2).2 = .ok () ∧
    (alookup pid (finalize_ingest db pid key t1).1.projects).map
      (fun x => (x.status, x.video_source)) = some ("upload_done", some key) ∧
    (alookup pid
        (finalize_ingest (finalize_ingest db pid key t1).1 pid key t2).1.projects).map
      (fun x => (x.status, x.video_source)) = some ("upload_done", some key) := by
  have h1 := finalize_ingest_found key t1 h
  have hl1 : alookup pid (finalize_ingest db pid key t1).1.projects =
      some ⟨"upload_done", some key, t1⟩ := by
    rw [h1]
    simp [alookup_aset, h]
  have h2 := finalize_ingest_found key t2 hl1
  refine ⟨by rw [h1], by rw [h2], by rw [hl1]; rfl, ?_⟩
  rw [h2]
  simp [alookup_aset, hl1]

/-- C4 (witness): double finalize on a one-project store. -/
theorem finalize_ingest_idempotent_witness :
    (finalize_ingest ⟨[("p1", ⟨"upload_ready", none, 0⟩)], [], []⟩ "p1" "k1" 1).2 = .ok () ∧
    (finalize_ingest
      (finalize_ingest ⟨[("p1", ⟨"upload_ready", none, 0⟩)], [], []⟩ "p1" "k1" 1).1
      "p1" "k1" 2).2 = .ok () ∧
    (alookup "p1"
        (finalize_ingest ⟨[("p1", ⟨"upload_ready", none, 0⟩)], [], []⟩ "p1" "k1" 1).1.projects).map
      (fun x => (x.status, x.video_source)) = some ("upload_done", some "k1") ∧
    (alookup "p1"
        (finalize_ingest
          (finalize_ingest ⟨[("p1", ⟨"upload_ready", none, 0⟩)], [], []⟩ "p1" "k1" 1).1
          "p1" "k1" 2).1.projects).map
      (fun x => (x.status, x.video_source)) = some ("upload_done", some "k1") :=
  finalize_ingest_idempotent ⟨[("p1", ⟨"upload_ready", none, 0⟩)], [], []⟩ "p1" "k1" 1 2
    ⟨"upload_ready", none, 0⟩ rfl

/-- C6: when the project is gone, `finalize_ingest` fails with the
404 `Project not found` error and neither starts the downstream job
nor touches the pipeline-stage record. -/
theorem finalize_missing_project_skips_downstream (db : Db) (pid key : String) (now : ℕ)
    (h : alookup pid db.projects = none) :
    (finalize_ingest db pid key now).2 = .error ⟨404, "Project not found"⟩ ∧
    (finalize_ingest db pid key now).1.jobsStarted = db.jobsStarted ∧
    (finalize_ingest db pid key now).1.pipeline = db.pipeline := by
  rw [finalize_ingest_missing key now h]
  exact ⟨rfl, rfl, rfl⟩

/-- C6 (witness): finalize against an empty project store. -/
theorem finalize_missing_project_skips_downstream_witness :
    (finalize_ingest ⟨[], [], []⟩ "p1" "k1" 0).2 = .error ⟨404, "Project not found"⟩ ∧
    (finalize_ingest ⟨[], [], []⟩ "p1" "k1" 0).1.jobsStarted = ([] : List String) ∧
    (finalize_ingest ⟨[], [], []⟩ "p1" "k1" 0).1.pipeline =
      ([] : List ((String × String) × PipelineRecord)) :=
  finalize_missing_project_skips_downstream ⟨[], [], []⟩ "p1" "k1" 0 rfl

/-- C9: `emit_progress` returns normally for every input and every
transport outcome — a transport error is swallowed, never re-raised
to the pipeline stage that published. -/
theorem emit_progress_never_raises (project_id : String) (hasRedisConn : Bool)
    (payload : EventPayload) (transport : EventPayload → Except RedisError Unit) :
    emit_progress project_id hasRedisConn payload transport = .ok () := by
  unfold emit_progress
  split
  · rfl
  · dsimp only
    split <;> rfl

/-! ### The failure path of the pipeline -/

/-- On any raised error the run leaves the document store exactly as
it found it. -/
lemma run_error_db (env : IngestEnv) (db : Db) (payload : IngestPayload) (e : HErr)
    (h : (_run_ingest_async env db payload).result = .error e) :
    (_run_ingest_async env db payload).db = db := by
  by_cases h1 : (truthyStr payload.source_url = false ∨ truthyStr payload.project_id = false)
  · simp [_run_ingest_async, if_pos h1]
  · by_cases h2 : env.bucket = ""
    · simp [_run_ingest_async, if_neg h1, if_pos h2]
    · simp only [_run_ingest_async, if_neg h1, if_neg h2] at h ⊢
      cases hd : env.download with
      | error s => simp [hd]
      | ok u =>
          cases u
          simp only [hd] at h ⊢
          cases hu : env.upload with
          | error s2 => simp [hu]
          | ok u2 =>
              cases u2
              simp only [hu] at h ⊢
              rcases hfin : finalize_ingest db (payload.project_id.getD "")
                  env.objectKey env.now with ⟨db1, r⟩
              cases r with
              | error e2 =>
                  simp only [hfin]
                  exact finalize_error_state hfin
              | ok u3 =>
                  cases u3
                  rw [hfin] at h
                  simp at h

/-- C5: whenever the pipeline raises before reaching done — a
download failure, an upload transport failure, or a finalize-time
failure — the queue marks the job failed with the causing error
recorded, and the project record, pipeline-stage record and
downstream job list are untouched. -/
theorem failed_job_no_side_effects (env : IngestEnv) (db : Db) (payload : IngestPayload)
    (e : HErr) (h : (_run_ingest_async env db payload).result = .error e) :
    (runIngestJob env db payload).status = .failed ∧
    (runIngestJob env db payload).error = some e ∧
    (runIngestJob env db payload).run.db.projects = db.projects ∧
    (runIngestJob env db payload).run.db.pipeline = db.pipeline ∧
    (runIngestJob env db payload).run.db.jobsStarted = db.jobsStarted := by
  have hdb := run_error_db env db payload e h
  refine ⟨?_, ?_, ?_, ?_, ?_⟩ <;> simp [runIngestJob, h, hdb]

/-- C5 (witness): a download that throws, against a one-project
store. -/
theorem failed_job_no_side_effects_witness :
    (runIngestJob ⟨true, true, "bucket", .error "network down", [], "k1", .ok (), 7⟩
      ⟨[("p1", ⟨"upload_ready", none, 0⟩)], [], []⟩
      ⟨some "https://example/video", some "p1"⟩).status = .failed ∧
    (runIngestJob ⟨true, true, "bucket", .error "network down", [], "k1", .ok (), 7⟩
      ⟨[("p1", ⟨"upload_ready", none, 0⟩)], [], []⟩
      ⟨some "https://example/video", some "p1"⟩).error =
      some ⟨400, "유튜브 영상을 다운로드할 수 없습니다."⟩ ∧
    (runIngestJob ⟨true, true, "bucket", .error "network down", [], "k1", .ok (), 7⟩
      ⟨[("p1", ⟨"upload_ready", none, 0⟩)], [], []⟩
      ⟨some "https://example/video", some "p1"⟩).run.db.projects =
      [("p1", ⟨"upload_ready", none, 0⟩)] ∧
    (runIngestJob ⟨true, true, "bucket", .error "network down", [], "k1", .ok (), 7⟩
      ⟨[("p1", ⟨"upload_ready", none, 0⟩)], [], []⟩
      ⟨some "https://example/video", some "p1"⟩).run.db.pipeline =
      ([] : List ((String × String) × PipelineRecord)) ∧
    (runIngestJob ⟨true, true, "bucket", .error "network down", [], "k1", .ok (), 7⟩
      ⟨[("p1", ⟨"upload_ready", none, 0⟩)], [], []⟩
      ⟨some "https://example/video", some "p1"⟩).run.db.jobsStarted =
      ([] : List String) :=
  failed_job_no_side_effects
    ⟨true, true, "bucket", .error "network down", [], "k1", .ok (), 7⟩
    ⟨[("p1", ⟨"upload_ready", none, 0⟩)], [], []⟩
    ⟨some "https://example/video", some "p1"⟩
    ⟨400, "유튜브 영상을 다운로드할 수 없습니다."⟩ rfl

/-! ### The two progress views at the downloading transition -/

lemma truthy_getD {o : Option String} (h : truthyStr o = true) : ¬ o.getD "" = "" := by
  cases o with
  | none => simp [truthyStr] at h
  | some s =>
      simp only [truthyStr, Bool.not_eq_eq_eq_not, Bool.not_true,
        beq_eq_false_iff_ne, ne_eq] at h
      simpa using h

lemma emitTo_shape (c : Bool) (pid st : String) (acc : List Emitted) (v : ℤ) :
    emitTo c pid acc st v = acc ∨
    emitTo c pid acc st v = acc ++ [⟨st, clamp v 0 100⟩] := by
  unfold emitTo
  split
  · exact Or.inl rfl
  · exact Or.inr rfl

lemma emitTo_foldl_exists (c : Bool) (pid st : String) (l : List ℤ) :
    ∀ acc : List Emitted,
      ∃ t, List.foldl (fun a v => emitTo c pid a st v) acc l = acc ++ t := by
  induction l with
  | nil => intro acc; exact ⟨[], by simp⟩
  | cons v rest ih =>
      intro acc
      simp only [List.foldl_cons]
      obtain ⟨t, ht⟩ := ih (emitTo c pid acc st v)
      rcases emitTo_shape c pid st acc v with hsh | hsh
      · exact ⟨t, by rw [ht, hsh]⟩
      · refine ⟨⟨st, clamp v 0 100⟩ :: t, ?_⟩
        rw [ht, hsh, List.append_assoc]
        rfl

/-- C10: at the queued-to-downloading transition the run writes
progress 0 into the job metadata while publishing a progress event
carrying 5 — the two public views disagree at that instant. -/
theorem download_start_views_differ (env : IngestEnv) (db : Db) (payload : IngestPayload)
    (hjob : env.hasJob = true) (hconn : env.hasRedisConn = true)
    (hsrc : truthyStr payload.source_url = true)
    (hpid : truthyStr payload.project_id = true)
    (hbucket : ¬ env.bucket = "") :
    (_run_ingest_async env db payload).metaTrace.head? =
      some ("downloading", some 0) ∧
    (_run_ingest_async env db payload).events.head? = some ⟨"downloading", 5⟩ ∧
    some (0 : ℤ) ≠ some (5 : ℤ) := by
  have hnot : ¬ (truthyStr payload.source_url = false ∨
      truthyStr payload.project_id = false) := by
    simp [hsrc, hpid]
  have hpid' := truthy_getD hpid
  have hev1 : emitTo env.hasRedisConn (payload.project_id.getD "") [] "downloading" 5 =
      [⟨"downloading", 5⟩] := by
    unfold emitTo
    rw [if_neg (by simp [hconn, hpid'])]
    norm_num [clamp]
  obtain ⟨t, ht⟩ := emitTo_foldl_exists env.hasRedisConn (payload.project_id.getD "")
    "downloading" (runHook env.rawEvents)
    (emitTo env.hasRedisConn (payload.project_id.getD "") [] "downloading" 5)
  rw [hev1] at ht
  have hcond : ¬ (payload.project_id.getD "" = "" ∨ env.hasRedisConn = false) := by
    simp [hconn, hpid']
  simp only [_run_ingest_async, if_neg hnot, if_neg hbucket, hjob, if_true, hev1, ht]
  cases hd : env.download with
  | error s => simp
  | ok u =>
      cases u
      cases hu : env.upload with
      | error s2 => simp [emitTo, hcond]
      | ok u2 =>
          cases u2
          rcases hfin : finalize_ingest db (payload.project_id.getD "")
              env.objectKey env.now with ⟨db1, r⟩
          cases r with
          | error e2 => simp [emitTo, hcond]
          | ok u3 => cases u3; simp [emitTo, hcond]

/-- C10 (witness): the diverging views at the transition for a
concrete run. -/
theorem download_start_views_differ_witness :
    (_run_ingest_async ⟨true, true, "bucket", .ok (), [], "k1", .ok (), 7⟩
      ⟨[], [], []⟩ ⟨some "https://example/video", some "p1"⟩).metaTrace.head? =
      some ("downloading", some 0) ∧
    (_run_ingest_async ⟨true, true, "bucket", .ok (), [], "k1", .ok (), 7⟩
      ⟨[], [], []⟩ ⟨some "https://example/video", some "p1"⟩).events.head? =
      some ⟨"downloading", 5⟩ ∧
    some (0 : ℤ) ≠ some (5 : ℤ) :=
  download_start_views_differ
    ⟨true, true, "bucket", .ok (), [], "k1", .ok (), 7⟩ ⟨[], [], []⟩
    ⟨some "https://example/video", some "p1"⟩ rfl rfl rfl rfl (by decide)

end App
